import Mathlib

set_option maxRecDepth 100000

/-!
# Verification of the saferbq validate-then-translate core

A shallow embedding of the repository's identifier sanitizer
(`identifier.go`) and query translator (`translate` in the query file),
together with proofs of the specification claims about them.

Go strings are modelled as Lean `String`s (sequences of Unicode scalar
values); where the Go code measures byte lengths (`len` on a string) the
embedding uses `String.utf8ByteSize`.  Go maps are modelled as association
lists in insertion order; because Go map iteration order is unspecified,
every loop that ranges over a map is parameterised by a reordering
function, and theorems quantify over reorderings that permute the entries.
-/

/-! ## Unicode character classes

`identifier.go` classifies runes with the Go `unicode` package:
`unicode.IsLetter`, `unicode.IsMark`, `unicode.IsNumber` and
`unicode.In(r, unicode.Pc, unicode.Pd, unicode.Zs)`.  The predicates below
model those library tables by explicit code-point ranges.  They are exact
on the ASCII range (the range every theorem below evaluates concretely)
and cover the principal non-ASCII blocks of each category; every universal
theorem in this file is independent of the exact extent of the tables. -/

namespace saferbq

def charInRanges (c : Char) (rs : List (Nat × Nat)) : Bool :=
  rs.any (fun p => decide (p.1 ≤ c.toNat ∧ c.toNat ≤ p.2))

/-- Models `unicode.IsLetter` (category L): exact on ASCII, with the major
non-ASCII letter blocks (Latin-1 letters, Latin extended, Greek, Cyrillic,
Hebrew, Arabic, Devanagari, Thai, Hiragana, Katakana, CJK, Hangul). -/
def goIsLetter (c : Char) : Bool :=
  charInRanges c
    [(0x41, 0x5A), (0x61, 0x7A), (0xAA, 0xAA), (0xB5, 0xB5), (0xBA, 0xBA),
     (0xC0, 0xD6), (0xD8, 0xF6), (0xF8, 0x2C1), (0x370, 0x373), (0x376, 0x377),
     (0x37A, 0x37D), (0x386, 0x386), (0x388, 0x38A), (0x38C, 0x38C),
     (0x38E, 0x3A1), (0x3A3, 0x3F5), (0x3F7, 0x481), (0x48A, 0x52F),
     (0x531, 0x556), (0x561, 0x587), (0x5D0, 0x5EA), (0x620, 0x64A),
     (0x671, 0x6D3), (0x904, 0x939), (0xE01, 0xE30), (0x3041, 0x3096),
     (0x30A1, 0x30FA), (0x3400, 0x4DBF), (0x4E00, 0x9FFF), (0xAC00, 0xD7A3)]

/-- Models `unicode.IsMark` (category M): combining diacritical marks and
the principal non-ASCII combining blocks.  No ASCII code point is a mark. -/
def goIsMark (c : Char) : Bool :=
  charInRanges c
    [(0x300, 0x36F), (0x483, 0x489), (0x591, 0x5BD), (0x610, 0x61A),
     (0x64B, 0x65F), (0x6D6, 0x6DC), (0x900, 0x903), (0x93A, 0x93C),
     (0x1AB0, 0x1AFF), (0x1DC0, 0x1DFF), (0x20D0, 0x20F0), (0xFE20, 0xFE2F)]

/-- Models `unicode.IsNumber` (category N): exact on ASCII (the decimal
digits), plus the common non-ASCII numeric code points. -/
def goIsNumber (c : Char) : Bool :=
  charInRanges c
    [(0x30, 0x39), (0xB2, 0xB3), (0xB9, 0xB9), (0xBC, 0xBE), (0x660, 0x669),
     (0x6F0, 0x6F9), (0x966, 0x96F), (0x2070, 0x2079), (0x2080, 0x2089),
     (0x2150, 0x2189), (0xFF10, 0xFF19)]

/-- Models membership in `unicode.Pc` (connector punctuation); this is the
complete Unicode table for the category. -/
def goIsPc (c : Char) : Bool :=
  charInRanges c
    [(0x5F, 0x5F), (0x203F, 0x2040), (0x2054, 0x2054), (0xFE33, 0xFE34),
     (0xFE4D, 0xFE4F), (0xFF3F, 0xFF3F)]

/-- Models membership in `unicode.Pd` (dash punctuation); this is the
complete Unicode table for the category. -/
def goIsPd (c : Char) : Bool :=
  charInRanges c
    [(0x2D, 0x2D), (0x58A, 0x58A), (0x5BE, 0x5BE), (0x1400, 0x1400),
     (0x1806, 0x1806), (0x2010, 0x2015), (0x2E17, 0x2E17), (0x2E1A, 0x2E1A),
     (0x2E3A, 0x2E3B), (0x2E40, 0x2E40), (0x301C, 0x301C), (0x3030, 0x3030),
     (0x30A0, 0x30A0), (0xFE31, 0xFE32), (0xFE58, 0xFE58), (0xFE63, 0xFE63),
     (0xFF0D, 0xFF0D)]

/-- Models membership in `unicode.Zs` (space separator); this is the
complete Unicode table for the category. -/
def goIsZs (c : Char) : Bool :=
  charInRanges c
    [(0x20, 0x20), (0xA0, 0xA0), (0x1680, 0x1680), (0x2000, 0x200A),
     (0x202F, 0x202F), (0x205F, 0x205F), (0x3000, 0x3000)]

/-! ## Identifier sanitizer (`identifier.go`) -/

/-- The character used to replace invalid identifier characters
(`identifier.go`, constant `underscore`). -/
def underscore : Char := '_'

/-- The character used to quote identifiers (`identifier.go`, constant
`backtick`, code point 96). -/
def backtick : Char := Char.ofNat 96

/-- `isValidIdentifierChar` (`identifier.go` lines 79-84): a rune is valid
for a BigQuery identifier when it is a Unicode letter, mark, number,
connector punctuation, dash punctuation or space separator. -/
def isValidIdentifierChar (r : Char) : Bool :=
  goIsLetter r || goIsMark r || goIsNumber r || goIsPc r || goIsPd r || goIsZs r

/-- Core loop of `filterIdentifierChars` (`identifier.go` lines 96-114)
over the rune sequence: valid runes are kept, invalid runes are replaced
by `underscore` and recorded once, in first-seen order, in the second
component.  `seen` models the Go `replacedMap`. -/
def filterCore : List Char → List Char → List Char × List Char
  | [], _ => ([], [])
  | r :: rest, seen =>
    if isValidIdentifierChar r then
      let p := filterCore rest seen
      (r :: p.1, p.2)
    else if seen.contains r then
      let p := filterCore rest seen
      (underscore :: p.1, p.2)
    else
      let p := filterCore rest (r :: seen)
      (underscore :: p.1, r :: p.2)

/-- `filterIdentifierChars` (`identifier.go` lines 96-114): returns the
sanitized identifier and the string of distinct replaced characters. -/
def filterIdentifierChars (s : String) : String × String :=
  let p := filterCore s.data []
  (⟨p.1⟩, ⟨p.2⟩)

/-- Go `any` values that can be supplied as a `bigquery.QueryParameter`
value in this development: strings, integers, booleans and `nil`. -/
inductive GoAny where
  | str (s : String)
  | int (n : Int)
  | bool (b : Bool)
  | null
deriving Repr, DecidableEq

/-- Models `fmt.Sprintf` with the `v` verb on the non-string cases of
`GoAny` (the `default` branch of `QuoteIdentifier`). -/
def goFormat : GoAny → String
  | .str s => s
  | .int n => toString n
  | .bool b => if b then "true" else "false"
  | .null => "<nil>"

/-- `QuoteIdentifier` (`identifier.go` lines 136-147): converts the value
to a string (`nil` becomes the empty string, strings pass through, other
values go through the generic formatter), sanitizes it, and wraps the
result in backticks.  Returns the quoted identifier and the replaced
characters. -/
def QuoteIdentifier (identifier : GoAny) : String × String :=
  let p :=
    match identifier with
    | .null => filterIdentifierChars ""
    | .str v => filterIdentifierChars v
    | v => filterIdentifierChars (goFormat v)
  (⟨backtick :: p.1.data ++ [backtick]⟩, p.2)

/-! ### Sanitizer lemmas -/

theorem backtick_not_valid : isValidIdentifierChar backtick = false := by decide

theorem dollar_not_valid : isValidIdentifierChar '$' = false := by decide

/-- Every character of the sanitized component of `filterCore` is either a
valid identifier character or the underscore. -/
theorem filterCore_mem_valid_or_underscore (l seen : List Char) :
    ∀ c ∈ (filterCore l seen).1, isValidIdentifierChar c = true ∨ c = underscore := by
  induction l generalizing seen with
  | nil => intro c hc; simp [filterCore] at hc
  | cons r rest ih =>
    intro c hc
    by_cases hv : isValidIdentifierChar r
    · simp only [filterCore, hv, if_true] at hc
      rcases List.mem_cons.mp hc with hc | hc
      · left; rw [hc]; exact hv
      · exact ih seen c hc
    · simp only [filterCore, hv, Bool.false_eq_true, if_false] at hc
      by_cases hs : seen.contains r
      · simp only [hs, if_true] at hc
        rcases List.mem_cons.mp hc with hc | hc
        · right; exact hc
        · exact ih seen c hc
      · simp only [hs, Bool.false_eq_true, if_false] at hc
        rcases List.mem_cons.mp hc with hc | hc
        · right; exact hc
        · exact ih (r :: seen) c hc

/-- The backtick never occurs in the sanitized component. -/
theorem backtick_not_mem_filterCore (l seen : List Char) :
    backtick ∉ (filterCore l seen).1 := by
  intro hmem
  rcases filterCore_mem_valid_or_underscore l seen backtick hmem with h | h
  · rw [backtick_not_valid] at h; cases h
  · cases h

/-- If every character of the input is valid, the sanitizer keeps the
input unchanged and rejects nothing. -/
theorem filterCore_all_valid (l : List Char)
    (h : ∀ c ∈ l, isValidIdentifierChar c = true) :
    ∀ seen, filterCore l seen = (l, []) := by
  induction l with
  | nil => intro seen; rfl
  | cons r rest ih =>
    intro seen
    have hr : isValidIdentifierChar r = true := h r (List.mem_cons_self r rest)
    have hrest : ∀ c ∈ rest, isValidIdentifierChar c = true :=
      fun c hc => h c (List.mem_cons_of_mem r hc)
    simp [filterCore, hr, ih hrest seen]

/-- C1: for every input value, the quoted string returned by
`QuoteIdentifier` begins and ends with a backtick and contains no backtick
between the two outer backticks, because the backtick is not a valid
identifier character and is replaced by underscore. -/
theorem quoteIdentifier_no_inner_backtick (v : GoAny) :
    ∃ inner : List Char,
      (QuoteIdentifier v).1.data = backtick :: inner ++ [backtick] ∧
      backtick ∉ inner := by
  cases v with
  | str s =>
    exact ⟨(filterCore s.data []).1, rfl, backtick_not_mem_filterCore s.data []⟩
  | int n =>
    exact ⟨(filterCore (goFormat (.int n)).data []).1, rfl,
      backtick_not_mem_filterCore _ []⟩
  | bool b =>
    exact ⟨(filterCore (goFormat (.bool b)).data []).1, rfl,
      backtick_not_mem_filterCore _ []⟩
  | null =>
    exact ⟨(filterCore "".data []).1, rfl, backtick_not_mem_filterCore _ []⟩

/-- C8: round-trip on clean values: if every code point of `v` is in the
allowed class, `QuoteIdentifier` returns exactly the backtick-wrapped
value with an empty rejection string, and sanitizing the sanitized value
again still rejects nothing. -/
theorem quoteIdentifier_round_trip (s : String)
    (h : ∀ c ∈ s.data, isValidIdentifierChar c = true) :
    QuoteIdentifier (.str s) = (⟨backtick :: s.data ++ [backtick]⟩, "") ∧
    (filterIdentifierChars (filterIdentifierChars s).1).2 = "" := by
  have hcore : filterCore s.data [] = (s.data, []) := filterCore_all_valid s.data h []
  constructor
  · simp only [QuoteIdentifier, filterIdentifierChars, hcore]
  · simp only [filterIdentifierChars, hcore]

/-- Witness for C8 at a concrete clean value. -/
theorem quoteIdentifier_round_trip_witness :
    QuoteIdentifier (.str "my-table 1") =
      (⟨backtick :: "my-table 1".data ++ [backtick]⟩, "") ∧
    (filterIdentifierChars (filterIdentifierChars "my-table 1").1).2 = "" :=
  quoteIdentifier_round_trip "my-table 1" (by decide)

/-! ## Query translator (`translate`, query file lines 93-184)

`bigquery.QueryParameter` is modelled by its two fields used here.  The Go
maps `parameters` and `identifiers` are association lists in insertion
order with overwrite-on-duplicate (`mapInsert`); every `range` over a map
is parameterised by a reordering function collected in `MapOrder`, since
Go map iteration order is unspecified. -/

structure QueryParameter where
  Name : String
  Value : GoAny
deriving Repr, DecidableEq

/-- The error taxonomy of the translator: each constructor corresponds to
one of the `Err...` sentinel values, carrying the data interpolated into
the error message by `fmt.Errorf`. -/
inductive TranslateError where
  | emptySQL
  | invalidParameterName (name : String)
  | parameterNotFound (name : String)
  | parameterNotProvided (name : String)
  | identifierNotFound (name : String)
  | identifierNotProvided (name : String)
  | notEnoughPositionalParams (found provided : Nat)
  | tooManyPositionalParams (found provided : Nat)
  | identifierInvalidChars (name replaced : String)
  | identifierEmpty (name : String)
  | identifierTooLong (name : String)
deriving Repr, DecidableEq

/-- The prefix for identifier parameters (constant `dollarSign`). -/
def dollarSign : Char := '$'

/-- The prefix for named parameters (constant `atSign`). -/
def atSign : Char := '@'

/-- The character for positional parameters (constant `questionMark`). -/
def questionMark : Char := '?'

/-- The maximum length in bytes for a BigQuery identifier without
backticks (constant `maxIdentifierBytes`). -/
def maxIdentifierBytes : Nat := 1024

/-- Go map assignment `m[k] = v`: overwrite the entry when the key is
present, append it otherwise. -/
def mapInsert {α : Type} (m : List (String × α)) (k : String) (v : α) :
    List (String × α) :=
  if m.any (fun q => q.1 == k) then
    m.map (fun q => if q.1 == k then (k, v) else q)
  else m ++ [(k, v)]

/-- Go map membership test `_, exists := m[k]`. -/
def mapContains {α : Type} (m : List (String × α)) (k : String) : Bool :=
  m.any (fun q => q.1 == k)

/-- The state built by the classification loop of `translate` (query file
lines 98-121): the named-parameter map, the identifier map, the
native-output sequence and the positional count. -/
structure Classified where
  parameters : List (String × QueryParameter)
  identifiers : List (String × GoAny)
  allParameters : List QueryParameter
  positionalParameterCount : Nat
deriving Repr, DecidableEq

/-- First classification loop of `translate` (query file lines 103-121):
scan the parameter slice left to right; named parameters are stripped of
their marker and appended to `allParameters`, identifier parameters are
recorded in the `identifiers` map, positional parameters are counted and
appended unchanged, and any other non-empty name aborts with
`invalidParameterName`.  The Go code inspects `paramName[0]`, a byte; for
the ASCII markers tested this agrees with the first character. -/
def classifyParamsAux : List QueryParameter →
    List (String × QueryParameter) → List (String × GoAny) →
    List QueryParameter → Nat → Except TranslateError Classified
  | [], parameters, identifiers, allParameters, n =>
    .ok ⟨parameters, identifiers, allParameters, n⟩
  | p :: rest, parameters, identifiers, allParameters, n =>
    match p.Name.data with
    | [] =>
      classifyParamsAux rest parameters identifiers (allParameters ++ [p]) (n + 1)
    | c :: nameRest =>
      if c = atSign then
        let p2 : QueryParameter := ⟨⟨nameRest⟩, p.Value⟩
        classifyParamsAux rest (mapInsert parameters p.Name p2) identifiers
          (allParameters ++ [p2]) n
      else if c = dollarSign then
        classifyParamsAux rest parameters (mapInsert identifiers p.Name p.Value)
          allParameters n
      else .error (.invalidParameterName p.Name)

def classifyParams (params : List QueryParameter) :
    Except TranslateError Classified :=
  classifyParamsAux params [] [] [] 0

/-- First character class of the placeholder patterns: a letter or
underscore. -/
def isIdentStartChar (c : Char) : Bool :=
  (decide ('a' ≤ c) && decide (c ≤ 'z')) ||
  (decide ('A' ≤ c) && decide (c ≤ 'Z')) || c == '_'

/-- Trailing character class of the placeholder patterns: a letter, digit
or underscore. -/
def isIdentInnerChar (c : Char) : Bool :=
  isIdentStartChar c || (decide ('0' ≤ c) && decide (c ≤ '9'))

/-- Models `FindAllStringSubmatch` with the placeholder patterns
(marker followed by a letter or underscore, then a run of letters, digits
and underscores), returning all matched texts left to right.  After a
match the scanner continues in the matched run, which is sound because
the run never contains the markers used here. -/
def findMarkerMatches (marker : Char) : List Char → List String
  | [] => []
  | [_] => []
  | c :: d :: rest2 =>
    if c = marker then
      if isIdentStartChar d then
        (⟨marker :: d :: rest2.takeWhile isIdentInnerChar⟩ : String) ::
          findMarkerMatches marker rest2
      else findMarkerMatches marker (d :: rest2)
    else findMarkerMatches marker (d :: rest2)

/-- Collecting the matched texts into a `map[string]bool` keeps one copy
of each distinct text; the insertion-order list of distinct texts models
the set content. -/
def dedupFirstAux : List String → List String → List String
  | [], _ => []
  | s :: rest, seen =>
    if seen.contains s then dedupFirstAux rest seen
    else s :: dedupFirstAux rest (s :: seen)

def dedupFirst (l : List String) : List String := dedupFirstAux l []

/-- The local `identifiersInSql` of `translate` (query file lines
122-127): the distinct identifier placeholders found in the SQL. -/
def identifiersInSqlOf (sql : String) : List String :=
  dedupFirst (findMarkerMatches dollarSign sql.data)

/-- The local `parametersInSql` of `translate` (query file lines
128-134): the distinct named placeholders found in the SQL. -/
def parametersInSqlOf (sql : String) : List String :=
  dedupFirst (findMarkerMatches atSign sql.data)

/-- Check loop at query file lines 136-140: the first supplied named
parameter absent from the SQL aborts with `parameterNotFound`. -/
def checkParametersFound (parameters : List (String × QueryParameter))
    (parametersInSql : List String) : Except TranslateError Unit :=
  match parameters.find? (fun kv => !parametersInSql.contains kv.1) with
  | some kv => .error (.parameterNotFound kv.1)
  | none => .ok ()

/-- Check loop at query file lines 142-147: the first named placeholder in
the SQL without a binding aborts with `parameterNotProvided`. -/
def checkParametersProvided (parametersInSql : List String)
    (parameters : List (String × QueryParameter)) : Except TranslateError Unit :=
  match parametersInSql.find? (fun k => !mapContains parameters k) with
  | some k => .error (.parameterNotProvided k)
  | none => .ok ()

/-- Check loop at query file lines 149-153: the first supplied identifier
absent from the SQL aborts with `identifierNotFound`. -/
def checkIdentifiersFound (identifiers : List (String × GoAny))
    (identifiersInSql : List String) : Except TranslateError Unit :=
  match identifiers.find? (fun kv => !identifiersInSql.contains kv.1) with
  | some kv => .error (.identifierNotFound kv.1)
  | none => .ok ()

/-- Check loop at query file lines 155-160: the first identifier
placeholder in the SQL without a binding aborts with
`identifierNotProvided`. -/
def checkIdentifiersProvided (identifiersInSql : List String)
    (identifiers : List (String × GoAny)) : Except TranslateError Unit :=
  match identifiersInSql.find? (fun k => !mapContains identifiers k) with
  | some k => .error (.identifierNotProvided k)
  | none => .ok ()

/-- Fuel-indexed core of `strings.ReplaceAll`: replace every
non-overlapping occurrence of `old`, scanning left to right.  The fuel is
bounded below by the input length, which suffices for a non-empty `old`
because every step consumes at least one character. -/
def goReplaceAllCore (old new : List Char) : Nat → List Char → List Char
  | _, [] => []
  | 0, l => l
  | fuel + 1, c :: rest =>
    if old.isPrefixOf (c :: rest) then
      new ++ goReplaceAllCore old new fuel ((c :: rest).drop old.length)
    else
      c :: goReplaceAllCore old new fuel rest

/-- Models `strings.ReplaceAll result identifier quoted`. -/
def goReplaceAll (s old new : String) : String :=
  ⟨goReplaceAllCore old.data new.data s.data.length s.data⟩

/-- Body of the replacement loop of `translate` (query file lines
170-182): quote the identifier value, abort with `identifierInvalidChars`
when any character was replaced, with `identifierEmpty` when the quoted
form has only the two backticks, with `identifierTooLong` when it exceeds
`maxIdentifierBytes` plus the two backticks, and otherwise substitute
every literal occurrence of the placeholder.  Go's `len` on strings is a
byte count, modelled by `String.utf8ByteSize`. -/
def replaceIdentifier (result identifier : String) (value : GoAny) :
    Except TranslateError String :=
  let q := QuoteIdentifier value
  if q.2 != "" then .error (.identifierInvalidChars identifier q.2)
  else if q.1.utf8ByteSize == 2 then .error (.identifierEmpty identifier)
  else if maxIdentifierBytes + 2 < q.1.utf8ByteSize then
    .error (.identifierTooLong identifier)
  else .ok (goReplaceAll result identifier q.1)

/-- The replacement loop of `translate` over the `identifiers` map. -/
def applyIdentifiers : List (String × GoAny) → String →
    Except TranslateError String
  | [], result => .ok result
  | (k, v) :: rest, result =>
    match replaceIdentifier result k v with
    | .error e => .error e
    | .ok r2 => applyIdentifiers rest r2

/-- A reordering for each of the five `range` loops over Go maps in
`translate`.  `insertion` is the canonical choice; theorems about
arbitrary orders assume `MapOrder.Valid`. -/
structure MapOrder where
  pOrd : List (String × QueryParameter) → List (String × QueryParameter)
  psOrd : List String → List String
  iOrd : List (String × GoAny) → List (String × GoAny)
  isOrd : List String → List String
  rOrd : List (String × GoAny) → List (String × GoAny)

def MapOrder.Valid (o : MapOrder) : Prop :=
  (∀ l, (o.pOrd l).Perm l) ∧ (∀ l, (o.psOrd l).Perm l) ∧
  (∀ l, (o.iOrd l).Perm l) ∧ (∀ l, (o.isOrd l).Perm l) ∧
  (∀ l, (o.rOrd l).Perm l)

def MapOrder.insertion : MapOrder := ⟨id, id, id, id, id⟩

theorem mapOrder_insertion_valid : MapOrder.Valid MapOrder.insertion :=
  ⟨fun l => List.Perm.refl l, fun l => List.Perm.refl l, fun l => List.Perm.refl l,
   fun l => List.Perm.refl l, fun l => List.Perm.refl l⟩

/-- `translate` (query file lines 93-184), parameterised by the map
iteration orders: reject empty SQL, classify the bindings, discover the
placeholders with the two patterns, run the four correspondence checks,
compare the positional counts, and apply the identifier substitutions.
The propagation of each stage's error is expressed with `Except.bind`. -/
def translateWith (o : MapOrder) (sql : String) (params : List QueryParameter) :
    Except TranslateError (String × List QueryParameter) :=
  if sql = "" then .error .emptySQL
  else
    (classifyParams params).bind fun c =>
      (checkParametersFound (o.pOrd c.parameters)
        (parametersInSqlOf sql)).bind fun _ =>
      (checkParametersProvided (o.psOrd (parametersInSqlOf sql))
        c.parameters).bind fun _ =>
      (checkIdentifiersFound (o.iOrd c.identifiers)
        (identifiersInSqlOf sql)).bind fun _ =>
      (checkIdentifiersProvided (o.isOrd (identifiersInSqlOf sql))
        c.identifiers).bind fun _ =>
      if c.positionalParameterCount < sql.data.count questionMark then
        .error (.notEnoughPositionalParams (sql.data.count questionMark)
          c.positionalParameterCount)
      else if sql.data.count questionMark < c.positionalParameterCount then
        .error (.tooManyPositionalParams (sql.data.count questionMark)
          c.positionalParameterCount)
      else
        (applyIdentifiers (o.rOrd c.identifiers) sql).bind fun result =>
          .ok (result, c.allParameters)

/-- `translate` with the canonical insertion iteration order. -/
def translate (sql : String) (params : List QueryParameter) :
    Except TranslateError (String × List QueryParameter) :=
  translateWith MapOrder.insertion sql params

/-! ### Concrete evaluation of the translator -/

/-- C2: evaluating `translate` on the full-table-path scenario.  The
repository's own test expects success with the dots preserved inside the
backticks, but the sanitizer in `identifier.go` classifies the dot as
invalid, so the translation aborts with `identifierInvalidChars` naming
the dot. -/
theorem translate_full_table_path_scenario :
    translate "SELECT * FROM $table WHERE id = 1"
      [⟨"$table", .str "myproject.mydataset.mytable"⟩] =
      .error (.identifierInvalidChars "$table" ".") := by rfl

/-- C3: the three checks on a quoted identifier value run in a fixed
order, each failure aborting with its error: a non-empty rejection string
yields `identifierInvalidChars` naming the placeholder and the rejected
characters; then a quoted value of exactly two bytes (empty between the
backticks) yields `identifierEmpty`; then a quoted value longer than
`maxIdentifierBytes` plus the two backticks yields `identifierTooLong`;
and a quoted value of exactly `maxIdentifierBytes` plus two bytes is
accepted and substituted. -/
theorem replaceIdentifier_check_order (r k : String) (v : GoAny) :
    ((QuoteIdentifier v).2 ≠ "" →
      replaceIdentifier r k v =
        .error (.identifierInvalidChars k (QuoteIdentifier v).2)) ∧
    ((QuoteIdentifier v).2 = "" → (QuoteIdentifier v).1.utf8ByteSize = 2 →
      replaceIdentifier r k v = .error (.identifierEmpty k)) ∧
    ((QuoteIdentifier v).2 = "" → (QuoteIdentifier v).1.utf8ByteSize ≠ 2 →
      maxIdentifierBytes + 2 < (QuoteIdentifier v).1.utf8ByteSize →
      replaceIdentifier r k v = .error (.identifierTooLong k)) ∧
    ((QuoteIdentifier v).2 = "" →
      (QuoteIdentifier v).1.utf8ByteSize = maxIdentifierBytes + 2 →
      replaceIdentifier r k v = .ok (goReplaceAll r k (QuoteIdentifier v).1)) := by
  refine ⟨fun h1 => ?_, fun h1 h2 => ?_, fun h1 h2 h3 => ?_, fun h1 h2 => ?_⟩
  · simp only [replaceIdentifier, bne_iff_ne, ne_eq, h1, not_false_eq_true, if_true]
  · simp only [replaceIdentifier, bne_iff_ne, ne_eq, h1, not_true_eq_false, if_false,
      beq_iff_eq, h2, if_true]
  · simp only [replaceIdentifier, bne_iff_ne, ne_eq, h1, not_true_eq_false, if_false,
      beq_iff_eq, h2, if_true, h3]
  · have h3 : ((QuoteIdentifier v).1.utf8ByteSize == 2) = false := by
      simp [h2, maxIdentifierBytes]
    have h4 : ¬ maxIdentifierBytes + 2 < (QuoteIdentifier v).1.utf8ByteSize := by
      simp [h2]
    simp only [replaceIdentifier, bne_iff_ne, ne_eq, h1, not_true_eq_false, if_false,
      h3, Bool.false_eq_true, h4]

/-- Witness for C3 at concrete inputs: a value with a semicolon is
rejected for its characters, an empty value is rejected as empty, a
1025-byte value is rejected as too long, and a 1024-byte value is
accepted. -/
theorem replaceIdentifier_check_order_witness :
    replaceIdentifier "q $t" "$t" (.str "a;b") =
      .error (.identifierInvalidChars "$t" ";") ∧
    replaceIdentifier "q $t" "$t" (.str "") = .error (.identifierEmpty "$t") ∧
    replaceIdentifier "q $t" "$t" (.str ⟨List.replicate 1025 'a'⟩) =
      .error (.identifierTooLong "$t") ∧
    replaceIdentifier "q $t" "$t" (.str ⟨List.replicate 1024 'a'⟩) =
      .ok (goReplaceAll "q $t" "$t" (QuoteIdentifier (.str ⟨List.replicate 1024 'a'⟩)).1) :=
  ⟨(replaceIdentifier_check_order "q $t" "$t" (.str "a;b")).1 (by decide),
   (replaceIdentifier_check_order "q $t" "$t" (.str "")).2.1 (by decide) (by decide),
   (replaceIdentifier_check_order "q $t" "$t" (.str ⟨List.replicate 1025 'a'⟩)).2.2.1
     (by decide) (by decide) (by decide),
   (replaceIdentifier_check_order "q $t" "$t" (.str ⟨List.replicate 1024 'a'⟩)).2.2.2
     (by decide) (by decide)⟩

/-! ### Inversion of a successful translation -/

theorem exceptBind_ok {ε α β : Type} (x : Except ε α) (f : α → Except ε β) (b : β) :
    (x.bind f = .ok b) ↔ ∃ a, x = .ok a ∧ f a = .ok b := by
  cases x <;> simp [Except.bind]

theorem exceptBind_error {ε α β : Type} (x : Except ε α) (f : α → Except ε β) (e : ε) :
    (x.bind f = .error e) ↔ (x = .error e ∨ ∃ a, x = .ok a ∧ f a = .error e) := by
  cases x <;> simp [Except.bind]

/-- Inversion: a successful `translateWith` run determines the outcome of
every stage: the SQL is non-empty, classification succeeded and produced
the returned native bindings, all four correspondence checks passed, the
positional counts agree, and the substitution loop produced the returned
SQL. -/
theorem translateWith_ok_inv (o : MapOrder) (sql : String)
    (params : List QueryParameter) (out : String) (native : List QueryParameter)
    (h : translateWith o sql params = .ok (out, native)) :
    sql ≠ "" ∧
    ∃ c : Classified,
      classifyParams params = .ok c ∧
      checkParametersFound (o.pOrd c.parameters)
        (parametersInSqlOf sql) = .ok () ∧
      checkParametersProvided (o.psOrd (parametersInSqlOf sql))
        c.parameters = .ok () ∧
      checkIdentifiersFound (o.iOrd c.identifiers)
        (identifiersInSqlOf sql) = .ok () ∧
      checkIdentifiersProvided (o.isOrd (identifiersInSqlOf sql))
        c.identifiers = .ok () ∧
      sql.data.count questionMark = c.positionalParameterCount ∧
      applyIdentifiers (o.rOrd c.identifiers) sql = .ok out ∧
      native = c.allParameters := by
  by_cases hsql : sql = ""
  · rw [translateWith, if_pos hsql] at h; cases h
  · rw [translateWith, if_neg hsql] at h
    rw [exceptBind_ok] at h
    obtain ⟨c, hclass, h⟩ := h
    rw [exceptBind_ok] at h
    obtain ⟨u1, hchk1, h⟩ := h
    cases u1
    rw [exceptBind_ok] at h
    obtain ⟨u2, hchk2, h⟩ := h
    cases u2
    rw [exceptBind_ok] at h
    obtain ⟨u3, hchk3, h⟩ := h
    cases u3
    rw [exceptBind_ok] at h
    obtain ⟨u4, hchk4, h⟩ := h
    cases u4
    by_cases hgt : c.positionalParameterCount < sql.data.count questionMark
    · rw [if_pos hgt] at h; cases h
    · rw [if_neg hgt] at h
      by_cases hlt : sql.data.count questionMark < c.positionalParameterCount
      · rw [if_pos hlt] at h; cases h
      · rw [if_neg hlt] at h
        rw [exceptBind_ok] at h
        obtain ⟨result, happ, h⟩ := h
        have hres : result = out ∧ c.allParameters = native := by
          simpa using h
        exact ⟨hsql, c, hclass, hchk1, hchk2, hchk3, hchk4, by omega,
          hres.1 ▸ happ, hres.2.symm⟩

/-! ### The native binding sequence (C5) -/

/-- How one input binding contributes to the native-output sequence:
named bindings are forwarded with the marker stripped, positional
bindings are forwarded unchanged, identifier bindings are dropped. -/
def nativeOf (p : QueryParameter) : Option QueryParameter :=
  match p.Name.data with
  | [] => some p
  | c :: nameRest => if c = atSign then some ⟨⟨nameRest⟩, p.Value⟩ else none

/-- The classification loop builds `allParameters` by appending, for each
binding in input order, exactly its `nativeOf` contribution. -/
theorem classifyParamsAux_native (rest : List QueryParameter) :
    ∀ ps ids all n c,
      classifyParamsAux rest ps ids all n = .ok c →
      c.allParameters = all ++ rest.filterMap nativeOf := by
  induction rest with
  | nil =>
    intro ps ids all n c h
    cases h
    simp
  | cons p rest ih =>
    intro ps ids all n c h
    cases hn : p.Name.data with
    | nil =>
      simp only [classifyParamsAux, hn] at h
      have := ih _ _ _ _ _ h
      simp [this, List.filterMap_cons, nativeOf, hn]
    | cons ch nameRest =>
      simp only [classifyParamsAux, hn] at h
      by_cases hat : ch = atSign
      · simp only [hat, if_true] at h
        have := ih _ _ _ _ _ h
        simp [this, List.filterMap_cons, nativeOf, hn, hat]
      · by_cases hdl : ch = dollarSign
        · simp only [hat, if_false, hdl, if_true] at h
          have := ih _ _ _ _ _ h
          simp [this, List.filterMap_cons, nativeOf, hn, hat]
        · simp only [hat, if_false, hdl] at h
          cases h

/-- C5: on every successful call, the returned native-binding list is
exactly the input sequence with named bindings stripped of their marker,
positional bindings kept unchanged, and identifier bindings dropped, in
the original relative order. -/
theorem translate_native_bindings (o : MapOrder) (sql : String)
    (params : List QueryParameter) (out : String) (native : List QueryParameter)
    (h : translateWith o sql params = .ok (out, native)) :
    native = params.filterMap nativeOf := by
  obtain ⟨-, c, hclass, -, -, -, -, -, -, hnat⟩ :=
    translateWith_ok_inv o sql params out native h
  have := classifyParamsAux_native params [] [] [] 0 c hclass
  simpa [hnat] using this

/-- Witness for C5 on a successful concrete run mixing the three binding
kinds. -/
theorem translate_native_bindings_witness :
    ([⟨"x", .int 1⟩, ⟨"", .int 2⟩] : List QueryParameter) =
      List.filterMap nativeOf [⟨"$t", .str "tbl"⟩, ⟨"@x", .int 1⟩, ⟨"", .int 2⟩] :=
  translate_native_bindings MapOrder.insertion "SELECT * FROM $t WHERE a = @x AND b = ?"
    [⟨"$t", .str "tbl"⟩, ⟨"@x", .int 1⟩, ⟨"", .int 2⟩]
    "SELECT * FROM `tbl` WHERE a = @x AND b = ?" [⟨"x", .int 1⟩, ⟨"", .int 2⟩] (by rfl)

/-! ### Stage lemmas for the validation order (C6, C7) -/

theorem exceptBind_okk {ε α β : Type} (a : α) (f : α → Except ε β) :
    (Except.ok a : Except ε α).bind f = f a := rfl

theorem exceptBind_err {ε α β : Type} (e : ε) (f : α → Except ε β) :
    (Except.error e : Except ε α).bind f = .error e := rfl

theorem checkParametersFound_ok_iff (l : List (String × QueryParameter)) (s : List String) :
    checkParametersFound l s = .ok () ↔ ∀ kv ∈ l, s.contains kv.1 = true := by
  unfold checkParametersFound
  cases hf : l.find? (fun kv => !s.contains kv.1) with
  | none =>
    simp only [hf]
    rw [List.find?_eq_none] at hf
    constructor
    · intro _ kv hm
      simpa using hf kv hm
    · intro _; trivial
  | some kv =>
    simp only [hf]
    have hp := List.find?_some hf
    have hm := List.mem_of_find?_eq_some hf
    constructor
    · intro h; exact Except.noConfusion h
    · intro hall
      have := hall kv hm
      rw [this] at hp
      simp at hp

theorem checkParametersFound_fails (l : List (String × QueryParameter)) (s : List String)
    (h : ∃ kv ∈ l, s.contains kv.1 = false) :
    ∃ nm, checkParametersFound l s = .error (.parameterNotFound nm) ∧
      (∃ kv ∈ l, kv.1 = nm) ∧ s.contains nm = false := by
  cases hf : l.find? (fun kv => !s.contains kv.1) with
  | none =>
    rw [List.find?_eq_none] at hf
    obtain ⟨kv, hm, hc⟩ := h
    exact absurd (by simpa using hf kv hm) (by simpa using hc)
  | some kv =>
    have hp := List.find?_some hf
    have hm := List.mem_of_find?_eq_some hf
    exact ⟨kv.1, by unfold checkParametersFound; rw [hf], ⟨kv, hm, rfl⟩, by simpa using hp⟩

theorem checkParametersProvided_ok_iff (s : List String)
    (l : List (String × QueryParameter)) :
    checkParametersProvided s l = .ok () ↔ ∀ k ∈ s, mapContains l k = true := by
  unfold checkParametersProvided
  cases hf : s.find? (fun k => !mapContains l k) with
  | none =>
    simp only [hf]
    rw [List.find?_eq_none] at hf
    constructor
    · intro _ k hm
      simpa using hf k hm
    · intro _; trivial
  | some k =>
    simp only [hf]
    have hp := List.find?_some hf
    have hm := List.mem_of_find?_eq_some hf
    constructor
    · intro h; exact Except.noConfusion h
    · intro hall
      have := hall k hm
      rw [this] at hp
      simp at hp

theorem checkParametersProvided_fails (s : List String)
    (l : List (String × QueryParameter)) (h : ∃ k ∈ s, mapContains l k = false) :
    ∃ nm, checkParametersProvided s l = .error (.parameterNotProvided nm) ∧
      nm ∈ s ∧ mapContains l nm = false := by
  cases hf : s.find? (fun k => !mapContains l k) with
  | none =>
    rw [List.find?_eq_none] at hf
    obtain ⟨k, hm, hc⟩ := h
    exact absurd (by simpa using hf k hm) (by simpa using hc)
  | some k =>
    have hp := List.find?_some hf
    have hm := List.mem_of_find?_eq_some hf
    exact ⟨k, by unfold checkParametersProvided; rw [hf], hm, by simpa using hp⟩

theorem checkIdentifiersFound_ok_iff (l : List (String × GoAny)) (s : List String) :
    checkIdentifiersFound l s = .ok () ↔ ∀ kv ∈ l, s.contains kv.1 = true := by
  unfold checkIdentifiersFound
  cases hf : l.find? (fun kv => !s.contains kv.1) with
  | none =>
    simp only [hf]
    rw [List.find?_eq_none] at hf
    constructor
    · intro _ kv hm
      simpa using hf kv hm
    · intro _; trivial
  | some kv =>
    simp only [hf]
    have hp := List.find?_some hf
    have hm := List.mem_of_find?_eq_some hf
    constructor
    · intro h; exact Except.noConfusion h
    · intro hall
      have := hall kv hm
      rw [this] at hp
      simp at hp

theorem checkIdentifiersFound_fails (l : List (String × GoAny)) (s : List String)
    (h : ∃ kv ∈ l, s.contains kv.1 = false) :
    ∃ nm, checkIdentifiersFound l s = .error (.identifierNotFound nm) ∧
      (∃ kv ∈ l, kv.1 = nm) ∧ s.contains nm = false := by
  cases hf : l.find? (fun kv => !s.contains kv.1) with
  | none =>
    rw [List.find?_eq_none] at hf
    obtain ⟨kv, hm, hc⟩ := h
    exact absurd (by simpa using hf kv hm) (by simpa using hc)
  | some kv =>
    have hp := List.find?_some hf
    have hm := List.mem_of_find?_eq_some hf
    exact ⟨kv.1, by unfold checkIdentifiersFound; rw [hf], ⟨kv, hm, rfl⟩, by simpa using hp⟩

theorem checkIdentifiersProvided_ok_iff (s : List String) (l : List (String × GoAny)) :
    checkIdentifiersProvided s l = .ok () ↔ ∀ k ∈ s, mapContains l k = true := by
  unfold checkIdentifiersProvided
  cases hf : s.find? (fun k => !mapContains l k) with
  | none =>
    simp only [hf]
    rw [List.find?_eq_none] at hf
    constructor
    · intro _ k hm
      simpa using hf k hm
    · intro _; trivial
  | some k =>
    simp only [hf]
    have hp := List.find?_some hf
    have hm := List.mem_of_find?_eq_some hf
    constructor
    · intro h; exact Except.noConfusion h
    · intro hall
      have := hall k hm
      rw [this] at hp
      simp at hp

theorem checkIdentifiersProvided_fails (s : List String) (l : List (String × GoAny))
    (h : ∃ k ∈ s, mapContains l k = false) :
    ∃ nm, checkIdentifiersProvided s l = .error (.identifierNotProvided nm) ∧
      nm ∈ s ∧ mapContains l nm = false := by
  cases hf : s.find? (fun k => !mapContains l k) with
  | none =>
    rw [List.find?_eq_none] at hf
    obtain ⟨k, hm, hc⟩ := h
    exact absurd (by simpa using hf k hm) (by simpa using hc)
  | some k =>
    have hp := List.find?_some hf
    have hm := List.mem_of_find?_eq_some hf
    exact ⟨k, by unfold checkIdentifiersProvided; rw [hf], hm, by simpa using hp⟩

/-- A binding name is invalid when it is non-empty and starts with neither
marker (the `default` branch of the classification switch). -/
def isInvalidName (p : QueryParameter) : Bool :=
  match p.Name.data with
  | [] => false
  | c :: _ => !(c == atSign) && !(c == dollarSign)

/-- The classification loop aborts with `invalidParameterName` carrying
the name of the first offending binding, in slice order. -/
theorem classifyParamsAux_invalid (rest : List QueryParameter) :
    ∀ ps ids all n p, rest.find? isInvalidName = some p →
      classifyParamsAux rest ps ids all n = .error (.invalidParameterName p.Name) := by
  induction rest with
  | nil => intro ps ids all n p h; simp at h
  | cons q rest ih =>
    intro ps ids all n p h
    cases hn : q.Name.data with
    | nil =>
      have hq : isInvalidName q = false := by simp [isInvalidName, hn]
      rw [List.find?_cons_of_neg _ (by simp [hq])] at h
      simpa only [classifyParamsAux, hn] using ih _ _ _ _ _ h
    | cons c nameRest =>
      by_cases hat : c = atSign
      · have hq : isInvalidName q = false := by simp [isInvalidName, hn, hat]
        rw [List.find?_cons_of_neg _ (by simp [hq])] at h
        simpa only [classifyParamsAux, hn, hat, if_true] using ih _ _ _ _ _ h
      · by_cases hdl : c = dollarSign
        · have hq : isInvalidName q = false := by simp [isInvalidName, hn, hdl]
          rw [List.find?_cons_of_neg _ (by simp [hq])] at h
          simpa only [classifyParamsAux, hn, hat, if_false, hdl, if_true] using
            ih _ _ _ _ _ h
        · have hq : isInvalidName q = true := by simp [isInvalidName, hn, hat, hdl]
          rw [List.find?_cons_of_pos _ (by simp [hq])] at h
          cases h
          simp [classifyParamsAux, hn, hat, hdl]

/-- C6: the validations of `translate` run in a fixed order and the first
violated check terminates the call with that check's error: empty SQL
first; then the left-to-right scan for a name starting with neither
marker; then supplied named parameters absent from the SQL; then SQL named
placeholders without a binding; then supplied identifiers absent from the
SQL; then SQL identifier placeholders without a binding; and only then are
the positional counts compared. -/
theorem translate_validation_order (o : MapOrder) (sql : String)
    (params : List QueryParameter) (ho : o.Valid) :
    (sql = "" → translateWith o sql params = .error .emptySQL) ∧
    (sql ≠ "" → ∀ p, params.find? isInvalidName = some p →
      translateWith o sql params = .error (.invalidParameterName p.Name)) ∧
    (sql ≠ "" → ∀ c, classifyParams params = .ok c →
      (∃ kv ∈ c.parameters, (parametersInSqlOf sql).contains kv.1 = false) →
      ∃ nm, translateWith o sql params = .error (.parameterNotFound nm) ∧
        (∃ kv ∈ c.parameters, kv.1 = nm) ∧
        (parametersInSqlOf sql).contains nm = false) ∧
    (sql ≠ "" → ∀ c, classifyParams params = .ok c →
      (∀ kv ∈ c.parameters, (parametersInSqlOf sql).contains kv.1 = true) →
      (∃ k ∈ parametersInSqlOf sql, mapContains c.parameters k = false) →
      ∃ nm, translateWith o sql params = .error (.parameterNotProvided nm) ∧
        nm ∈ parametersInSqlOf sql ∧ mapContains c.parameters nm = false) ∧
    (sql ≠ "" → ∀ c, classifyParams params = .ok c →
      (∀ kv ∈ c.parameters, (parametersInSqlOf sql).contains kv.1 = true) →
      (∀ k ∈ parametersInSqlOf sql, mapContains c.parameters k = true) →
      (∃ kv ∈ c.identifiers, (identifiersInSqlOf sql).contains kv.1 = false) →
      ∃ nm, translateWith o sql params = .error (.identifierNotFound nm) ∧
        (∃ kv ∈ c.identifiers, kv.1 = nm) ∧
        (identifiersInSqlOf sql).contains nm = false) ∧
    (sql ≠ "" → ∀ c, classifyParams params = .ok c →
      (∀ kv ∈ c.parameters, (parametersInSqlOf sql).contains kv.1 = true) →
      (∀ k ∈ parametersInSqlOf sql, mapContains c.parameters k = true) →
      (∀ kv ∈ c.identifiers, (identifiersInSqlOf sql).contains kv.1 = true) →
      (∃ k ∈ identifiersInSqlOf sql, mapContains c.identifiers k = false) →
      ∃ nm, translateWith o sql params = .error (.identifierNotProvided nm) ∧
        nm ∈ identifiersInSqlOf sql ∧ mapContains c.identifiers nm = false) ∧
    (sql ≠ "" → ∀ c, classifyParams params = .ok c →
      (∀ kv ∈ c.parameters, (parametersInSqlOf sql).contains kv.1 = true) →
      (∀ k ∈ parametersInSqlOf sql, mapContains c.parameters k = true) →
      (∀ kv ∈ c.identifiers, (identifiersInSqlOf sql).contains kv.1 = true) →
      (∀ k ∈ identifiersInSqlOf sql, mapContains c.identifiers k = true) →
      sql.data.count questionMark ≠ c.positionalParameterCount →
      (translateWith o sql params = .error (.notEnoughPositionalParams
          (sql.data.count questionMark) c.positionalParameterCount) ∨
       translateWith o sql params = .error (.tooManyPositionalParams
          (sql.data.count questionMark) c.positionalParameterCount))) := by
  obtain ⟨hop, hops, hoi, hois, hor⟩ := ho
  refine ⟨?_, ?_, ?_, ?_, ?_, ?_, ?_⟩
  · intro hsql
    rw [translateWith, if_pos hsql]
  · intro hsql p hfind
    rw [translateWith, if_neg hsql, classifyParams,
      classifyParamsAux_invalid params [] [] [] 0 p hfind, exceptBind_err]
  · intro hsql c hclass hex
    have hperm := hop c.parameters
    obtain ⟨nm, herr, ⟨kv, hm, hkv⟩, hcon⟩ :=
      checkParametersFound_fails (o.pOrd c.parameters) (parametersInSqlOf sql)
        (by obtain ⟨kv, hm, hc⟩ := hex; exact ⟨kv, hperm.mem_iff.2 hm, hc⟩)
    refine ⟨nm, ?_, ⟨kv, hperm.mem_iff.1 hm, hkv⟩, hcon⟩
    rw [translateWith, if_neg hsql, hclass]
    simp only [exceptBind_okk]
    rw [herr, exceptBind_err]
  · intro hsql c hclass hall1 hex
    have hok1 : checkParametersFound (o.pOrd c.parameters) (parametersInSqlOf sql) = .ok () :=
      (checkParametersFound_ok_iff _ _).2
        (fun kv hm => hall1 kv ((hop c.parameters).mem_iff.1 hm))
    have hperm := hops (parametersInSqlOf sql)
    obtain ⟨nm, herr, hm, hcon⟩ :=
      checkParametersProvided_fails (o.psOrd (parametersInSqlOf sql)) c.parameters
        (by obtain ⟨k, hm, hc⟩ := hex; exact ⟨k, hperm.mem_iff.2 hm, hc⟩)
    refine ⟨nm, ?_, hperm.mem_iff.1 hm, hcon⟩
    rw [translateWith, if_neg hsql, hclass]
    simp only [exceptBind_okk]
    rw [hok1]
    simp only [exceptBind_okk]
    rw [herr, exceptBind_err]
  · intro hsql c hclass hall1 hall2 hex
    have hok1 : checkParametersFound (o.pOrd c.parameters) (parametersInSqlOf sql) = .ok () :=
      (checkParametersFound_ok_iff _ _).2
        (fun kv hm => hall1 kv ((hop c.parameters).mem_iff.1 hm))
    have hok2 : checkParametersProvided (o.psOrd (parametersInSqlOf sql)) c.parameters = .ok () :=
      (checkParametersProvided_ok_iff _ _).2
        (fun k hm => hall2 k ((hops (parametersInSqlOf sql)).mem_iff.1 hm))
    have hperm := hoi c.identifiers
    obtain ⟨nm, herr, ⟨kv, hm, hkv⟩, hcon⟩ :=
      checkIdentifiersFound_fails (o.iOrd c.identifiers) (identifiersInSqlOf sql)
        (by obtain ⟨kv, hm, hc⟩ := hex; exact ⟨kv, hperm.mem_iff.2 hm, hc⟩)
    refine ⟨nm, ?_, ⟨kv, hperm.mem_iff.1 hm, hkv⟩, hcon⟩
    rw [translateWith, if_neg hsql, hclass]
    simp only [exceptBind_okk]
    rw [hok1]
    simp only [exceptBind_okk]
    rw [hok2]
    simp only [exceptBind_okk]
    rw [herr, exceptBind_err]
  · intro hsql c hclass hall1 hall2 hall3 hex
    have hok1 : checkParametersFound (o.pOrd c.parameters) (parametersInSqlOf sql) = .ok () :=
      (checkParametersFound_ok_iff _ _).2
        (fun kv hm => hall1 kv ((hop c.parameters).mem_iff.1 hm))
    have hok2 : checkParametersProvided (o.psOrd (parametersInSqlOf sql)) c.parameters = .ok () :=
      (checkParametersProvided_ok_iff _ _).2
        (fun k hm => hall2 k ((hops (parametersInSqlOf sql)).mem_iff.1 hm))
    have hok3 : checkIdentifiersFound (o.iOrd c.identifiers) (identifiersInSqlOf sql) = .ok () :=
      (checkIdentifiersFound_ok_iff _ _).2
        (fun kv hm => hall3 kv ((hoi c.identifiers).mem_iff.1 hm))
    have hperm := hois (identifiersInSqlOf sql)
    obtain ⟨nm, herr, hm, hcon⟩ :=
      checkIdentifiersProvided_fails (o.isOrd (identifiersInSqlOf sql)) c.identifiers
        (by obtain ⟨k, hm, hc⟩ := hex; exact ⟨k, hperm.mem_iff.2 hm, hc⟩)
    refine ⟨nm, ?_, hperm.mem_iff.1 hm, hcon⟩
    rw [translateWith, if_neg hsql, hclass]
    simp only [exceptBind_okk]
    rw [hok1]
    simp only [exceptBind_okk]
    rw [hok2]
    simp only [exceptBind_okk]
    rw [hok3]
    simp only [exceptBind_okk]
    rw [herr, exceptBind_err]
  · intro hsql c hclass hall1 hall2 hall3 hall4 hne
    have hok1 : checkParametersFound (o.pOrd c.parameters) (parametersInSqlOf sql) = .ok () :=
      (checkParametersFound_ok_iff _ _).2
        (fun kv hm => hall1 kv ((hop c.parameters).mem_iff.1 hm))
    have hok2 : checkParametersProvided (o.psOrd (parametersInSqlOf sql)) c.parameters = .ok () :=
      (checkParametersProvided_ok_iff _ _).2
        (fun k hm => hall2 k ((hops (parametersInSqlOf sql)).mem_iff.1 hm))
    have hok3 : checkIdentifiersFound (o.iOrd c.identifiers) (identifiersInSqlOf sql) = .ok () :=
      (checkIdentifiersFound_ok_iff _ _).2
        (fun kv hm => hall3 kv ((hoi c.identifiers).mem_iff.1 hm))
    have hok4 : checkIdentifiersProvided (o.isOrd (identifiersInSqlOf sql)) c.identifiers = .ok () :=
      (checkIdentifiersProvided_ok_iff _ _).2
        (fun k hm => hall4 k ((hois (identifiersInSqlOf sql)).mem_iff.1 hm))
    rw [translateWith, if_neg hsql, hclass]
    simp only [exceptBind_okk]
    rw [hok1]
    simp only [exceptBind_okk]
    rw [hok2]
    simp only [exceptBind_okk]
    rw [hok3]
    simp only [exceptBind_okk]
    rw [hok4]
    simp only [exceptBind_okk]
    by_cases hgt : c.positionalParameterCount < sql.data.count questionMark
    · left; rw [if_pos hgt]
    · right
      have hlt : sql.data.count questionMark < c.positionalParameterCount := by omega
      rw [if_neg hgt, if_pos hlt]

/-- Witness for C6: the empty-SQL conjunct evaluated at a concrete input
with the insertion iteration order. -/
theorem translate_validation_order_witness :
    translateWith MapOrder.insertion "" [⟨"$t", .str "x"⟩] = .error .emptySQL :=
  (translate_validation_order MapOrder.insertion "" [⟨"$t", .str "x"⟩]
    mapOrder_insertion_valid).1 rfl

/-- C7: once every earlier check has passed, `translate` counts the
literal question marks anywhere in the SQL and compares the count with the
number of empty-name bindings: more question marks than bindings fail with
`notEnoughPositionalParams`, fewer fail with `tooManyPositionalParams`,
and both errors report the found and provided counts. -/
theorem translate_positional_counts (o : MapOrder) (sql : String)
    (params : List QueryParameter) (ho : o.Valid) (c : Classified)
    (hsql : sql ≠ "") (hclass : classifyParams params = .ok c)
    (hall1 : ∀ kv ∈ c.parameters, (parametersInSqlOf sql).contains kv.1 = true)
    (hall2 : ∀ k ∈ parametersInSqlOf sql, mapContains c.parameters k = true)
    (hall3 : ∀ kv ∈ c.identifiers, (identifiersInSqlOf sql).contains kv.1 = true)
    (hall4 : ∀ k ∈ identifiersInSqlOf sql, mapContains c.identifiers k = true) :
    (c.positionalParameterCount < sql.data.count questionMark →
      translateWith o sql params = .error (.notEnoughPositionalParams
        (sql.data.count questionMark) c.positionalParameterCount)) ∧
    (sql.data.count questionMark < c.positionalParameterCount →
      translateWith o sql params = .error (.tooManyPositionalParams
        (sql.data.count questionMark) c.positionalParameterCount)) := by
  obtain ⟨hop, hops, hoi, hois, hor⟩ := ho
  have hok1 : checkParametersFound (o.pOrd c.parameters) (parametersInSqlOf sql) = .ok () :=
    (checkParametersFound_ok_iff _ _).2
      (fun kv hm => hall1 kv ((hop c.parameters).mem_iff.1 hm))
  have hok2 : checkParametersProvided (o.psOrd (parametersInSqlOf sql)) c.parameters = .ok () :=
    (checkParametersProvided_ok_iff _ _).2
      (fun k hm => hall2 k ((hops (parametersInSqlOf sql)).mem_iff.1 hm))
  have hok3 : checkIdentifiersFound (o.iOrd c.identifiers) (identifiersInSqlOf sql) = .ok () :=
    (checkIdentifiersFound_ok_iff _ _).2
      (fun kv hm => hall3 kv ((hoi c.identifiers).mem_iff.1 hm))
  have hok4 : checkIdentifiersProvided (o.isOrd (identifiersInSqlOf sql)) c.identifiers = .ok () :=
    (checkIdentifiersProvided_ok_iff _ _).2
      (fun k hm => hall4 k ((hois (identifiersInSqlOf sql)).mem_iff.1 hm))
  constructor
  · intro hgt
    rw [translateWith, if_neg hsql, hclass]
    simp only [exceptBind_okk]
    rw [hok1]
    simp only [exceptBind_okk]
    rw [hok2]
    simp only [exceptBind_okk]
    rw [hok3]
    simp only [exceptBind_okk]
    rw [hok4]
    simp only [exceptBind_okk]
    rw [if_pos hgt]
  · intro hlt
    have hgt : ¬ c.positionalParameterCount < sql.data.count questionMark := by omega
    rw [translateWith, if_neg hsql, hclass]
    simp only [exceptBind_okk]
    rw [hok1]
    simp only [exceptBind_okk]
    rw [hok2]
    simp only [exceptBind_okk]
    rw [hok3]
    simp only [exceptBind_okk]
    rw [hok4]
    simp only [exceptBind_okk]
    rw [if_neg hgt, if_pos hlt]

/-- Witness for C7: two question marks with one positional binding report
found two, provided one. -/
theorem translate_positional_counts_witness :
    translateWith MapOrder.insertion "SELECT * FROM t WHERE id = ? AND status = ?"
      [⟨"", .int 1⟩] = .error (.notEnoughPositionalParams 2 1) :=
  (translate_positional_counts MapOrder.insertion
    "SELECT * FROM t WHERE id = ? AND status = ?" [⟨"", .int 1⟩]
    mapOrder_insertion_valid ⟨[], [], [⟨"", .int 1⟩], 1⟩ (by decide) (by rfl)
    (by decide) (by decide) (by decide) (by decide)).1 (by decide)

/-! ### Success characterisation and map-order (in)dependence (C9, C4) -/

/-- The three per-value checks of the replacement loop as a predicate on
the identifier value alone. -/
def identifierValueOk (v : GoAny) : Bool :=
  ((QuoteIdentifier v).2 == "") && ((QuoteIdentifier v).1.utf8ByteSize != 2) &&
    decide ((QuoteIdentifier v).1.utf8ByteSize ≤ maxIdentifierBytes + 2)

theorem replaceIdentifier_ok_iff (r k : String) (v : GoAny) :
    (∃ r2, replaceIdentifier r k v = .ok r2) ↔ identifierValueOk v = true := by
  unfold replaceIdentifier identifierValueOk
  by_cases h1 : (QuoteIdentifier v).2 = ""
  · by_cases h2 : (QuoteIdentifier v).1.utf8ByteSize = 2
    · simp [h1, h2]
    · by_cases h3 : maxIdentifierBytes + 2 < (QuoteIdentifier v).1.utf8ByteSize
      · have hle : ¬ (QuoteIdentifier v).1.utf8ByteSize ≤ maxIdentifierBytes + 2 := by
          omega
        simp [h1, h2, h3, hle]
      · have hle : (QuoteIdentifier v).1.utf8ByteSize ≤ maxIdentifierBytes + 2 := by
          omega
        simp [h1, h2, h3, hle]
  · simp [h1]

theorem applyIdentifiers_ok_iff (L : List (String × GoAny)) :
    ∀ r, (∃ out, applyIdentifiers L r = .ok out) ↔
      ∀ kv ∈ L, identifierValueOk kv.2 = true := by
  induction L with
  | nil => intro r; simp [applyIdentifiers]
  | cons kv rest ih =>
    intro r
    obtain ⟨k, v⟩ := kv
    constructor
    · rintro ⟨out, hout⟩
      simp only [applyIdentifiers] at hout
      cases hrep : replaceIdentifier r k v with
      | error e => rw [hrep] at hout; exact absurd hout (by simp)
      | ok r2 =>
        rw [hrep] at hout
        intro kv2 hm
        rcases List.mem_cons.mp hm with h | h
        · subst h
          exact (replaceIdentifier_ok_iff r k v).1 ⟨r2, hrep⟩
        · exact ((ih r2).1 ⟨out, hout⟩) kv2 h
    · intro hall
      have hv : identifierValueOk v = true := hall (k, v) (List.mem_cons_self _ _)
      obtain ⟨r2, hrep⟩ := (replaceIdentifier_ok_iff r k v).2 hv
      obtain ⟨out, hout⟩ := (ih r2).2 (fun kv2 hm => hall kv2 (List.mem_cons_of_mem _ hm))
      refine ⟨out, ?_⟩
      simp only [applyIdentifiers, hrep]
      exact hout

/-- Success of `translate` characterised purely in terms of
`(sql, bindings)`, with no reference to any map-iteration order. -/
def translateSucceeds (sql : String) (params : List QueryParameter) : Prop :=
  sql ≠ "" ∧
  ∃ c : Classified,
    classifyParams params = .ok c ∧
    (∀ kv ∈ c.parameters, (parametersInSqlOf sql).contains kv.1 = true) ∧
    (∀ k ∈ parametersInSqlOf sql, mapContains c.parameters k = true) ∧
    (∀ kv ∈ c.identifiers, (identifiersInSqlOf sql).contains kv.1 = true) ∧
    (∀ k ∈ identifiersInSqlOf sql, mapContains c.identifiers k = true) ∧
    sql.data.count questionMark = c.positionalParameterCount ∧
    (∀ kv ∈ c.identifiers, identifierValueOk kv.2 = true)

/-- Whether `translateWith` succeeds depends only on `(sql, bindings)`,
never on the map-iteration order. -/
theorem translateWith_isOk (o : MapOrder) (sql : String)
    (params : List QueryParameter) (ho : o.Valid) :
    (∃ res, translateWith o sql params = .ok res) ↔ translateSucceeds sql params := by
  obtain ⟨hop, hops, hoi, hois, hor⟩ := ho
  constructor
  · rintro ⟨⟨out, native⟩, h⟩
    obtain ⟨hsql, c, hclass, hchk1, hchk2, hchk3, hchk4, hcount, happ, hnat⟩ :=
      translateWith_ok_inv o sql params out native h
    refine ⟨hsql, c, hclass, ?_, ?_, ?_, ?_, hcount, ?_⟩
    · intro kv hm
      exact (checkParametersFound_ok_iff _ _).1 hchk1 kv ((hop c.parameters).mem_iff.2 hm)
    · intro k hm
      exact (checkParametersProvided_ok_iff _ _).1 hchk2 k
        ((hops (parametersInSqlOf sql)).mem_iff.2 hm)
    · intro kv hm
      exact (checkIdentifiersFound_ok_iff _ _).1 hchk3 kv ((hoi c.identifiers).mem_iff.2 hm)
    · intro k hm
      exact (checkIdentifiersProvided_ok_iff _ _).1 hchk4 k
        ((hois (identifiersInSqlOf sql)).mem_iff.2 hm)
    · intro kv hm
      exact (applyIdentifiers_ok_iff (o.rOrd c.identifiers) sql).1 ⟨out, happ⟩ kv
        ((hor c.identifiers).mem_iff.2 hm)
  · rintro ⟨hsql, c, hclass, hall1, hall2, hall3, hall4, hcount, hvals⟩
    have hok1 : checkParametersFound (o.pOrd c.parameters) (parametersInSqlOf sql) = .ok () :=
      (checkParametersFound_ok_iff _ _).2
        (fun kv hm => hall1 kv ((hop c.parameters).mem_iff.1 hm))
    have hok2 : checkParametersProvided (o.psOrd (parametersInSqlOf sql)) c.parameters = .ok () :=
      (checkParametersProvided_ok_iff _ _).2
        (fun k hm => hall2 k ((hops (parametersInSqlOf sql)).mem_iff.1 hm))
    have hok3 : checkIdentifiersFound (o.iOrd c.identifiers) (identifiersInSqlOf sql) = .ok () :=
      (checkIdentifiersFound_ok_iff _ _).2
        (fun kv hm => hall3 kv ((hoi c.identifiers).mem_iff.1 hm))
    have hok4 : checkIdentifiersProvided (o.isOrd (identifiersInSqlOf sql)) c.identifiers = .ok () :=
      (checkIdentifiersProvided_ok_iff _ _).2
        (fun k hm => hall4 k ((hois (identifiersInSqlOf sql)).mem_iff.1 hm))
    obtain ⟨out, happ⟩ := (applyIdentifiers_ok_iff (o.rOrd c.identifiers) sql).2
      (fun kv hm => hvals kv ((hor c.identifiers).mem_iff.1 hm))
    refine ⟨(out, c.allParameters), ?_⟩
    rw [translateWith, if_neg hsql, hclass]
    simp only [exceptBind_okk]
    rw [hok1]
    simp only [exceptBind_okk]
    rw [hok2]
    simp only [exceptBind_okk]
    rw [hok3]
    simp only [exceptBind_okk]
    rw [hok4]
    simp only [exceptBind_okk]
    have hgt : ¬ c.positionalParameterCount < sql.data.count questionMark := by omega
    have hlt : ¬ sql.data.count questionMark < c.positionalParameterCount := by omega
    rw [if_neg hgt, if_neg hlt, happ, exceptBind_okk]

/-- A second iteration order: every map is ranged over in reverse. -/
def MapOrder.reversed : MapOrder :=
  ⟨fun l => l.reverse, fun l => l.reverse, fun l => l.reverse,
   fun l => l.reverse, fun l => l.reverse⟩

theorem mapOrder_reversed_valid : MapOrder.Valid MapOrder.reversed :=
  ⟨fun l => l.reverse_perm, fun l => l.reverse_perm, fun l => l.reverse_perm,
   fun l => l.reverse_perm, fun l => l.reverse_perm⟩

/-- C9 counterexample: on one fixed input with two offending identifier
values, two valid map-iteration orders make `translate` return different
error values, and even errors of different kinds, so the result is not a
function of `(sql, bindings)` alone. -/
theorem translate_error_depends_on_map_order :
    MapOrder.Valid MapOrder.insertion ∧ MapOrder.Valid MapOrder.reversed ∧
    translateWith MapOrder.insertion "SELECT $a $b"
      [⟨"$a", .str ""⟩, ⟨"$b", .str ";"⟩] = .error (.identifierEmpty "$a") ∧
    translateWith MapOrder.reversed "SELECT $a $b"
      [⟨"$a", .str ""⟩, ⟨"$b", .str ";"⟩] = .error (.identifierInvalidChars "$b" ";") ∧
    translateWith MapOrder.insertion "SELECT $a $b"
      [⟨"$a", .str ""⟩, ⟨"$b", .str ";"⟩] ≠
      translateWith MapOrder.reversed "SELECT $a $b"
        [⟨"$a", .str ""⟩, ⟨"$b", .str ";"⟩] := by
  refine ⟨mapOrder_insertion_valid, mapOrder_reversed_valid, by rfl, by rfl, ?_⟩
  intro h
  have h2 : (Except.error (TranslateError.identifierEmpty "$a") :
      Except TranslateError (String × List QueryParameter)) =
      Except.error (.identifierInvalidChars "$b" ";") := h
  exact absurd (Except.error.inj h2) (by decide)

/-- C9 amended: the success-or-failure verdict of `translate` is a
deterministic function of `(sql, bindings)`: two calls with any two valid
map-iteration orders agree on whether translation succeeds. -/
theorem translate_verdict_deterministic (sql : String) (params : List QueryParameter)
    (o₁ o₂ : MapOrder) (h₁ : o₁.Valid) (h₂ : o₂.Valid) :
    (∃ res, translateWith o₁ sql params = .ok res) ↔
      (∃ res, translateWith o₂ sql params = .ok res) :=
  (translateWith_isOk o₁ sql params h₁).trans (translateWith_isOk o₂ sql params h₂).symm

/-- Witness for the amended C9 on the counterexample input: the verdict
agrees between the insertion and the reversed order. -/
theorem translate_verdict_deterministic_witness :
    ((∃ res, translateWith MapOrder.insertion "SELECT $a $b"
        [⟨"$a", .str ""⟩, ⟨"$b", .str ";"⟩] = .ok res) ↔
      (∃ res, translateWith MapOrder.reversed "SELECT $a $b"
        [⟨"$a", .str ""⟩, ⟨"$b", .str ";"⟩] = .ok res)) :=
  translate_verdict_deterministic "SELECT $a $b" [⟨"$a", .str ""⟩, ⟨"$b", .str ";"⟩]
    MapOrder.insertion MapOrder.reversed mapOrder_insertion_valid mapOrder_reversed_valid

/-! ### C4: the output SQL contains no identifier placeholder token

The key combinatorial facts: every discovered token starts with the
dollar marker followed by identifier characters only, every quoted
replacement is backtick-delimited text free of the dollar marker, and
`strings.ReplaceAll` therefore removes every occurrence of the processed
token and can never create an occurrence of any token. -/

/-- The shape of every text matched by the identifier pattern. -/
def TokenShape (t : List Char) : Prop :=
  ∃ d run, t = dollarSign :: d :: run ∧ isIdentStartChar d = true ∧
    ∀ c ∈ run, isIdentInnerChar c = true

theorem identStart_inner {c : Char} (h : isIdentStartChar c = true) :
    isIdentInnerChar c = true := by
  simp [isIdentInnerChar, h]

theorem identInner_ne_dollar {c : Char} (h : isIdentInnerChar c = true) :
    c ≠ dollarSign := by
  intro he; subst he; exact absurd h (by decide)

theorem identInner_ne_backtick {c : Char} (h : isIdentInnerChar c = true) :
    c ≠ backtick := by
  intro he; subst he; exact absurd h (by decide)

theorem valid_ne_dollar {c : Char} (h : isValidIdentifierChar c = true) :
    c ≠ dollarSign := by
  intro he; subst he; exact absurd h (by decide)

theorem valid_ne_backtick {c : Char} (h : isValidIdentifierChar c = true) :
    c ≠ backtick := by
  intro he; subst he; exact absurd h (by decide)

/-- Every text matched by the identifier pattern has `TokenShape`. -/
theorem findMarkerMatches_shape : ∀ l : List Char,
    ∀ t ∈ findMarkerMatches dollarSign l, TokenShape t.data
  | [] => by simp [findMarkerMatches]
  | [c] => by simp [findMarkerMatches]
  | c :: d :: rest2 => by
    intro t ht
    by_cases hc : c = dollarSign
    · by_cases hd : isIdentStartChar d = true
      · simp only [findMarkerMatches, hc, if_true, hd] at ht
        rcases List.mem_cons.mp ht with h | h
        · subst h
          exact ⟨d, rest2.takeWhile isIdentInnerChar, rfl, hd,
            fun ch hm => List.mem_takeWhile_imp hm⟩
        · exact findMarkerMatches_shape rest2 t h
      · simp only [findMarkerMatches, hc, if_true, hd, Bool.false_eq_true,
          if_false] at ht
        exact findMarkerMatches_shape (d :: rest2) t ht
    · simp only [findMarkerMatches, hc, if_false] at ht
      exact findMarkerMatches_shape (d :: rest2) t ht

/-- The quoted form of any value is the backtick, sanitized text whose
characters are all valid, and the backtick. -/
theorem quoteIdentifier_shape (v : GoAny) :
    ∃ w, (QuoteIdentifier v).1.data = backtick :: w ++ [backtick] ∧
      ∀ c ∈ w, isValidIdentifierChar c = true := by
  have hund : isValidIdentifierChar underscore = true := by decide
  have hgen : ∀ l : List Char, ∀ c ∈ (filterCore l []).1, isValidIdentifierChar c = true := by
    intro l c hc
    rcases filterCore_mem_valid_or_underscore l [] c hc with h | h
    · exact h
    · rw [h]; exact hund
  cases v with
  | str s => exact ⟨(filterCore s.data []).1, rfl, hgen s.data⟩
  | int n => exact ⟨(filterCore (goFormat (.int n)).data []).1, rfl, hgen _⟩
  | bool b => exact ⟨(filterCore (goFormat (.bool b)).data []).1, rfl, hgen _⟩
  | null => exact ⟨(filterCore "".data []).1, rfl, hgen _⟩

/-- The dollar marker never occurs in a quoted identifier value. -/
theorem quoteIdentifier_noDollar (v : GoAny) :
    dollarSign ∉ (QuoteIdentifier v).1.data := by
  obtain ⟨w, hw, hval⟩ := quoteIdentifier_shape v
  rw [hw]
  intro hmem
  rcases List.mem_cons.mp hmem with h | h
  · exact absurd h (by decide)
  · rcases List.mem_append.mp h with h | h
    · exact absurd (hval _ h) (by decide)
    · have : dollarSign = backtick := by simpa using h
      exact absurd this (by decide)

theorem replaceIdentifier_ok_result {r k : String} {v : GoAny} {r2 : String}
    (h : replaceIdentifier r k v = .ok r2) :
    r2 = goReplaceAll r k (QuoteIdentifier v).1 := by
  unfold replaceIdentifier at h
  by_cases h1 : ((QuoteIdentifier v).2 != "") = true
  · rw [if_pos h1] at h; exact absurd h (by simp)
  · rw [if_neg h1] at h
    by_cases h2 : ((QuoteIdentifier v).1.utf8ByteSize == 2) = true
    · rw [if_pos h2] at h; exact absurd h (by simp)
    · rw [if_neg h2] at h
      by_cases h3 : maxIdentifierBytes + 2 < (QuoteIdentifier v).1.utf8ByteSize
      · rw [if_pos h3] at h; exact absurd h (by simp)
      · rw [if_neg h3] at h
        exact (Except.ok.inj h).symm

/-- An occurrence of a non-empty pattern inside an appended list either
places the pattern's first character inside the left part or is an
occurrence inside the right part. -/
theorem infix_append_cases {α : Type} {h0 : α} {Ptl X Y : List α}
    (hinf : (h0 :: Ptl) <:+: X ++ Y) : h0 ∈ X ∨ (h0 :: Ptl) <:+: Y := by
  obtain ⟨u, v, huv⟩ := hinf
  rw [List.append_assoc] at huv
  rcases List.append_eq_append_iff.mp huv with ⟨a, ha1, ha2⟩ | ⟨c2, hc1, hc2⟩
  · cases a with
    | nil =>
      right
      refine ⟨[], v, ?_⟩
      simpa using ha2
    | cons x a2 =>
      left
      have hx : h0 = x := by
        have := congrArg List.head? ha2
        simpa using this
      rw [ha1, hx]
      exact List.mem_append.mpr (Or.inr (List.mem_cons_self x a2))
  · right
    exact ⟨c2, v, by rw [hc2, List.append_assoc]⟩

/-- If a non-empty word free of the dollar marker and the backtick is a
prefix of the output of the replacement core, it was already a prefix of
the input: replacements start with a backtick, so the word cannot reach
into one. -/
theorem replaceCore_prefix_transfer (P N2 : List Char) :
    ∀ fuel (w s : List Char), w ≠ [] →
      (∀ c ∈ w, c ≠ dollarSign ∧ c ≠ backtick) →
      w <+: goReplaceAllCore P (backtick :: N2) fuel s → w <+: s := by
  intro fuel
  induction fuel with
  | zero =>
    intro w s hw hwc h
    cases s with
    | nil => simpa only [goReplaceAllCore] using h
    | cons c rest => simpa only [goReplaceAllCore] using h
  | succ fuel ih =>
    intro w s hw hwc h
    cases s with
    | nil => simpa only [goReplaceAllCore] using h
    | cons c rest =>
      by_cases hpre : P.isPrefixOf (c :: rest) = true
      · rw [show goReplaceAllCore P (backtick :: N2) (fuel + 1) (c :: rest) =
            (backtick :: N2) ++ goReplaceAllCore P (backtick :: N2) fuel
              ((c :: rest).drop P.length) by
          simp only [goReplaceAllCore, hpre, if_true]] at h
        cases w with
        | nil => exact absurd rfl hw
        | cons wh wt =>
          have := (List.cons_prefix_cons.mp h).1
          exact absurd this (hwc wh (List.mem_cons_self wh wt)).2
      · rw [show goReplaceAllCore P (backtick :: N2) (fuel + 1) (c :: rest) =
            c :: goReplaceAllCore P (backtick :: N2) fuel rest by
          simp only [goReplaceAllCore, hpre, Bool.false_eq_true, if_false]] at h
        cases w with
        | nil => exact absurd rfl hw
        | cons wh wt =>
          obtain ⟨hwh, hwt⟩ := List.cons_prefix_cons.mp h
          cases wt with
          | nil => exact List.cons_prefix_cons.mpr ⟨hwh, List.nil_prefix⟩
          | cons x xs =>
            have hsub : ∀ ch ∈ x :: xs, ch ≠ dollarSign ∧ ch ≠ backtick :=
              fun ch hm => hwc ch (List.mem_cons_of_mem wh hm)
            exact List.cons_prefix_cons.mpr
              ⟨hwh, ih (x :: xs) rest (by simp) hsub hwt⟩

/-- Replacing a token (dollar marker plus identifier characters) by a
backtick-delimited, dollar-free replacement leaves no occurrence of the
token, provided the fuel covers the input length. -/
theorem replaceCore_kills (Ptail N2 : List Char) (hPt : Ptail ≠ [])
    (hPc : ∀ c ∈ Ptail, c ≠ dollarSign ∧ c ≠ backtick)
    (hN : dollarSign ∉ backtick :: N2) :
    ∀ fuel s, s.length ≤ fuel →
      ¬ (dollarSign :: Ptail) <:+:
        goReplaceAllCore (dollarSign :: Ptail) (backtick :: N2) fuel s := by
  intro fuel
  induction fuel with
  | zero =>
    intro s hlen
    have hs : s = [] := List.eq_nil_of_length_eq_zero (Nat.le_zero.mp hlen)
    subst hs
    simp only [goReplaceAllCore, List.infix_nil]
    simp
  | succ fuel ih =>
    intro s hlen
    cases s with
    | nil =>
      simp only [goReplaceAllCore, List.infix_nil]
      simp
    | cons c rest =>
      by_cases hpre : (dollarSign :: Ptail).isPrefixOf (c :: rest) = true
      · rw [show goReplaceAllCore (dollarSign :: Ptail) (backtick :: N2) (fuel + 1)
            (c :: rest) = (backtick :: N2) ++
              goReplaceAllCore (dollarSign :: Ptail) (backtick :: N2) fuel
                ((c :: rest).drop (dollarSign :: Ptail).length) by
          simp only [goReplaceAllCore, hpre, if_true]]
        intro hinf
        rcases infix_append_cases hinf with hmem | hinf2
        · exact hN hmem
        · have hlen2 : ((c :: rest).drop (dollarSign :: Ptail).length).length ≤ fuel := by
            simp only [List.length_drop, List.length_cons]
            simp only [List.length_cons] at hlen
            omega
          exact ih _ hlen2 hinf2
      · rw [show goReplaceAllCore (dollarSign :: Ptail) (backtick :: N2) (fuel + 1)
            (c :: rest) = c ::
              goReplaceAllCore (dollarSign :: Ptail) (backtick :: N2) fuel rest by
          simp only [goReplaceAllCore, hpre, Bool.false_eq_true, if_false]]
        intro hinf
        rcases List.infix_cons_iff.mp hinf with hp | hinf2
        · obtain ⟨hc, hPt2⟩ := List.cons_prefix_cons.mp hp
          have htr : Ptail <+: rest :=
            replaceCore_prefix_transfer (dollarSign :: Ptail) N2 fuel Ptail rest
              hPt hPc hPt2
          have hpre2 : (dollarSign :: Ptail) <+: (c :: rest) :=
            List.cons_prefix_cons.mpr ⟨hc, htr⟩
          rw [List.isPrefixOf_iff_prefix] at hpre
          exact hpre hpre2
        · have hlen2 : rest.length ≤ fuel := by
            simp only [List.length_cons] at hlen
            omega
          exact ih rest hlen2 hinf2

/-- Replacing any dollar-marked pattern by a backtick-delimited,
dollar-free replacement cannot create an occurrence of a token that was
not already present. -/
theorem replaceCore_preserves (Pt Qt N2 : List Char) (hQt : Qt ≠ [])
    (hQc : ∀ c ∈ Qt, c ≠ dollarSign ∧ c ≠ backtick)
    (hN : dollarSign ∉ backtick :: N2) :
    ∀ fuel s, s.length ≤ fuel → ¬ (dollarSign :: Qt) <:+: s →
      ¬ (dollarSign :: Qt) <:+:
        goReplaceAllCore (dollarSign :: Pt) (backtick :: N2) fuel s := by
  intro fuel
  induction fuel with
  | zero =>
    intro s hlen hns
    have hs : s = [] := List.eq_nil_of_length_eq_zero (Nat.le_zero.mp hlen)
    subst hs
    simpa only [goReplaceAllCore] using hns
  | succ fuel ih =>
    intro s hlen hns
    cases s with
    | nil => simpa only [goReplaceAllCore] using hns
    | cons c rest =>
      by_cases hpre : (dollarSign :: Pt).isPrefixOf (c :: rest) = true
      · rw [show goReplaceAllCore (dollarSign :: Pt) (backtick :: N2) (fuel + 1)
            (c :: rest) = (backtick :: N2) ++
              goReplaceAllCore (dollarSign :: Pt) (backtick :: N2) fuel
                ((c :: rest).drop (dollarSign :: Pt).length) by
          simp only [goReplaceAllCore, hpre, if_true]]
        intro hinf
        rcases infix_append_cases hinf with hmem | hinf2
        · exact hN hmem
        · have hlen2 : ((c :: rest).drop (dollarSign :: Pt).length).length ≤ fuel := by
            simp only [List.length_drop, List.length_cons]
            simp only [List.length_cons] at hlen
            omega
          have hns2 : ¬ (dollarSign :: Qt) <:+: (c :: rest).drop (dollarSign :: Pt).length :=
            fun hq => hns (hq.trans (List.drop_suffix _ _).isInfix)
          exact ih _ hlen2 hns2 hinf2
      · rw [show goReplaceAllCore (dollarSign :: Pt) (backtick :: N2) (fuel + 1)
            (c :: rest) = c ::
              goReplaceAllCore (dollarSign :: Pt) (backtick :: N2) fuel rest by
          simp only [goReplaceAllCore, hpre, Bool.false_eq_true, if_false]]
        intro hinf
        rcases List.infix_cons_iff.mp hinf with hp | hinf2
        · obtain ⟨hc, hQt2⟩ := List.cons_prefix_cons.mp hp
          have htr : Qt <+: rest :=
            replaceCore_prefix_transfer (dollarSign :: Pt) N2 fuel Qt rest hQt hQc hQt2
          have : (dollarSign :: Qt) <+: (c :: rest) :=
            List.cons_prefix_cons.mpr ⟨hc, htr⟩
          exact hns this.isInfix
        · have hlen2 : rest.length ≤ fuel := by
            simp only [List.length_cons] at hlen
            omega
          have hns2 : ¬ (dollarSign :: Qt) <:+: rest :=
            fun hq => hns (List.infix_cons hq)
          exact ih rest hlen2 hns2 hinf2

/-- Processing further identifiers never re-introduces a token already
absent from the working SQL. -/
theorem applyIdentifiers_preserve_fold :
    ∀ (L : List (String × GoAny)) (r out Q : String),
      (∀ kv ∈ L, TokenShape kv.1.data) → TokenShape Q.data →
      ¬ Q.data <:+: r.data → applyIdentifiers L r = .ok out →
      ¬ Q.data <:+: out.data := by
  intro L
  induction L with
  | nil =>
    intro r out Q _ _ hnr happ
    have hro : r = out := by simpa [applyIdentifiers] using happ
    exact hro ▸ hnr
  | cons hd tl ih =>
    intro r out Q hshape hQ hnr happ
    obtain ⟨k, v⟩ := hd
    simp only [applyIdentifiers] at happ
    cases hrep : replaceIdentifier r k v with
    | error e => rw [hrep] at happ; exact absurd happ (by simp)
    | ok r2 =>
      rw [hrep] at happ
      have hr2 := replaceIdentifier_ok_result hrep
      obtain ⟨kd, krun, hk, hkd, hkrun⟩ := hshape (k, v) (List.mem_cons_self _ _)
      obtain ⟨w, hw, hwval⟩ := quoteIdentifier_shape v
      have hw2 : (QuoteIdentifier v).1.data = backtick :: (w ++ [backtick]) :=
        hw.trans (List.cons_append _ _ _)
      obtain ⟨qd, qrun, hq, hqd, hqrun⟩ := hQ
      have hQc : ∀ c ∈ qd :: qrun, c ≠ dollarSign ∧ c ≠ backtick := by
        intro c hc
        rcases List.mem_cons.mp hc with rfl | hc2
        · exact ⟨identInner_ne_dollar (identStart_inner hqd),
            identInner_ne_backtick (identStart_inner hqd)⟩
        · exact ⟨identInner_ne_dollar (hqrun c hc2),
            identInner_ne_backtick (hqrun c hc2)⟩
      have hN : dollarSign ∉ backtick :: (w ++ [backtick]) :=
        hw2 ▸ quoteIdentifier_noDollar v
      have hnr2 : ¬ Q.data <:+: r2.data := by
        rw [hr2]
        show ¬ Q.data <:+:
          goReplaceAllCore k.data (QuoteIdentifier v).1.data r.data.length r.data
        rw [hk, hw2, hq]
        exact replaceCore_preserves (kd :: krun) (qd :: qrun) (w ++ [backtick])
          (by simp) hQc hN r.data.length r.data (le_refl _) (hq ▸ hnr)
      exact ih r2 out Q (fun kv2 hm => hshape kv2 (List.mem_cons_of_mem _ hm))
        ⟨qd, qrun, hq, hqd, hqrun⟩ hnr2 happ

/-- After a successful replacement loop, no processed token occurs in the
resulting SQL. -/
theorem applyIdentifiers_not_infix :
    ∀ (L : List (String × GoAny)) (r out : String),
      (∀ kv ∈ L, TokenShape kv.1.data) →
      applyIdentifiers L r = .ok out →
      ∀ kv ∈ L, ¬ kv.1.data <:+: out.data := by
  intro L
  induction L with
  | nil => intro r out _ _ kv hm; simp at hm
  | cons hd tl ih =>
    intro r out hshape happ kv hm
    obtain ⟨k, v⟩ := hd
    simp only [applyIdentifiers] at happ
    cases hrep : replaceIdentifier r k v with
    | error e => rw [hrep] at happ; exact absurd happ (by simp)
    | ok r2 =>
      rw [hrep] at happ
      have hr2 := replaceIdentifier_ok_result hrep
      rcases List.mem_cons.mp hm with rfl | hm2
      · obtain ⟨kd, krun, hk, hkd, hkrun⟩ := hshape (k, v) (List.mem_cons_self _ _)
        obtain ⟨w, hw, hwval⟩ := quoteIdentifier_shape v
        have hw2 : (QuoteIdentifier v).1.data = backtick :: (w ++ [backtick]) :=
          hw.trans (List.cons_append _ _ _)
        have hKc : ∀ c ∈ kd :: krun, c ≠ dollarSign ∧ c ≠ backtick := by
          intro c hc
          rcases List.mem_cons.mp hc with rfl | hc2
          · exact ⟨identInner_ne_dollar (identStart_inner hkd),
              identInner_ne_backtick (identStart_inner hkd)⟩
          · exact ⟨identInner_ne_dollar (hkrun c hc2),
              identInner_ne_backtick (hkrun c hc2)⟩
        have hN : dollarSign ∉ backtick :: (w ++ [backtick]) :=
          hw2 ▸ quoteIdentifier_noDollar v
        have hkill : ¬ k.data <:+: r2.data := by
          rw [hr2]
          show ¬ k.data <:+:
            goReplaceAllCore k.data (QuoteIdentifier v).1.data r.data.length r.data
          rw [hk, hw2]
          exact replaceCore_kills (kd :: krun) (w ++ [backtick]) (by simp) hKc hN
            r.data.length r.data (le_refl _)
        exact applyIdentifiers_preserve_fold tl r2 out k
          (fun kv2 hm3 => hshape kv2 (List.mem_cons_of_mem _ hm3))
          ⟨kd, krun, hk, hkd, hkrun⟩ hkill happ
      · exact ih r2 out (fun kv2 hm3 => hshape kv2 (List.mem_cons_of_mem _ hm3))
          happ kv hm2

theorem dedupFirstAux_subset (l : List String) :
    ∀ seen a, a ∈ dedupFirstAux l seen → a ∈ l := by
  induction l with
  | nil => intro seen a h; simp [dedupFirstAux] at h
  | cons s rest ih =>
    intro seen a h
    by_cases hs : seen.contains s = true
    · simp only [dedupFirstAux, hs, if_true] at h
      exact List.mem_cons_of_mem s (ih seen a h)
    · simp only [dedupFirstAux, hs, Bool.false_eq_true, if_false] at h
      rcases List.mem_cons.mp h with rfl | h2
      · exact List.mem_cons_self _ _
      · exact List.mem_cons_of_mem s (ih (s :: seen) a h2)

theorem mem_dedupFirstAux_of_mem (l : List String) :
    ∀ seen a, a ∈ l → a ∈ dedupFirstAux l seen ∨ a ∈ seen := by
  induction l with
  | nil => intro seen a h; simp at h
  | cons s rest ih =>
    intro seen a h
    by_cases hs : seen.contains s = true
    · simp only [dedupFirstAux, hs, if_true]
      rcases List.mem_cons.mp h with rfl | h2
      · right; simpa using hs
      · exact ih seen a h2
    · simp only [dedupFirstAux, hs, Bool.false_eq_true, if_false]
      rcases List.mem_cons.mp h with rfl | h2
      · left; exact List.mem_cons_self _ _
      · rcases ih (s :: seen) a h2 with h3 | h3
        · left; exact List.mem_cons_of_mem _ h3
        · rcases List.mem_cons.mp h3 with rfl | h4
          · left; exact List.mem_cons_self _ _
          · right; exact h4

/-- `dedupFirst` keeps exactly the elements of its input. -/
theorem mem_dedupFirst_iff (l : List String) (a : String) :
    a ∈ dedupFirst l ↔ a ∈ l := by
  constructor
  · exact dedupFirstAux_subset l [] a
  · intro h
    rcases mem_dedupFirstAux_of_mem l [] a h with h2 | h2
    · exact h2
    · simp at h2

theorem mapContains_exists {α : Type} (m : List (String × α)) (k : String)
    (h : mapContains m k = true) : ∃ kv ∈ m, kv.1 = k := by
  unfold mapContains at h
  rw [List.any_eq_true] at h
  obtain ⟨kv, hm, hk⟩ := h
  exact ⟨kv, hm, by simpa using hk⟩

/-- C4: on every successful translation, the returned SQL contains zero
occurrences, as a contiguous substring, of any identifier placeholder
token matched by the discovery pattern in the input SQL. -/
theorem translate_output_has_no_identifier_tokens (o : MapOrder) (sql : String)
    (params : List QueryParameter) (out : String) (native : List QueryParameter)
    (ho : o.Valid) (h : translateWith o sql params = .ok (out, native)) :
    ∀ t ∈ findMarkerMatches dollarSign sql.data, ¬ t.data <:+: out.data := by
  obtain ⟨hsql, c, hclass, hchk1, hchk2, hchk3, hchk4, hcount, happ, hnat⟩ :=
    translateWith_ok_inv o sql params out native h
  obtain ⟨hop, hops, hoi, hois, hor⟩ := ho
  intro t ht
  have htd : t ∈ identifiersInSqlOf sql :=
    (mem_dedupFirst_iff (findMarkerMatches dollarSign sql.data) t).2 ht
  have hmc : mapContains c.identifiers t = true :=
    (checkIdentifiersProvided_ok_iff _ _).1 hchk4 t
      ((hois (identifiersInSqlOf sql)).mem_iff.2 htd)
  obtain ⟨kv, hkvm, hkv1⟩ := mapContains_exists c.identifiers t hmc
  have hkvm2 : kv ∈ o.rOrd c.identifiers := (hor c.identifiers).mem_iff.2 hkvm
  have hshape : ∀ kv2 ∈ o.rOrd c.identifiers, TokenShape kv2.1.data := by
    intro kv2 hm2
    have hm3 : kv2 ∈ c.identifiers := (hor c.identifiers).mem_iff.1 hm2
    have hcon : (identifiersInSqlOf sql).contains kv2.1 = true :=
      (checkIdentifiersFound_ok_iff _ _).1 hchk3 kv2 ((hoi c.identifiers).mem_iff.2 hm3)
    have hmem : kv2.1 ∈ identifiersInSqlOf sql := by simpa using hcon
    have hmem2 : kv2.1 ∈ findMarkerMatches dollarSign sql.data :=
      (mem_dedupFirst_iff _ _).1 hmem
    exact findMarkerMatches_shape sql.data kv2.1 hmem2
  have hall := applyIdentifiers_not_infix (o.rOrd c.identifiers) sql out hshape happ
  have := hall kv hkvm2
  rwa [hkv1] at this

/-- Witness for C4 on a concrete successful run: the single discovered
token is absent from the output. -/
theorem translate_output_has_no_identifier_tokens_witness :
    ¬ "$table".data <:+: "SELECT * FROM `mytable` WHERE id = 1".data :=
  translate_output_has_no_identifier_tokens MapOrder.insertion
    "SELECT * FROM $table WHERE id = 1" [⟨"$table", .str "mytable"⟩]
    "SELECT * FROM `mytable` WHERE id = 1" [] mapOrder_insertion_valid (by rfl)
    "$table" (by decide)

/-! ### C10: the caller's binding slice is never mutated

The only code in `translate` that touches the caller's slice is the
classification loop, and `for _, p := range params` reads each element
into the loop-local copy `p`; the assignment `p.Name = paramName[1:]`
mutates that copy, which is then appended to the fresh `allParameters`
slice.  The frame model below threads the caller's slice through the loop
explicitly and returns it alongside the usual result, so that the absence
of writes to the slice is a provable statement rather than an artefact of
a pure encoding. -/

/-- The classification loop with the caller's slice as explicit state.
Each iteration reads the head element into the local copy `pLocal`, works
only on that copy, and passes the element through to the returned slice
unchanged. -/
def classifyParamsFrame : List QueryParameter →
    List (String × QueryParameter) → List (String × GoAny) →
    List QueryParameter → Nat →
    Except TranslateError Classified × List QueryParameter
  | [], parameters, identifiers, allParameters, n =>
    (.ok ⟨parameters, identifiers, allParameters, n⟩, [])
  | p :: rest, parameters, identifiers, allParameters, n =>
    let pLocal := p
    match pLocal.Name.data with
    | [] =>
      let res := classifyParamsFrame rest parameters identifiers
        (allParameters ++ [pLocal]) (n + 1)
      (res.1, p :: res.2)
    | c :: nameRest =>
      if c = atSign then
        let pLocal2 : QueryParameter := ⟨⟨nameRest⟩, pLocal.Value⟩
        let res := classifyParamsFrame rest (mapInsert parameters p.Name pLocal2)
          identifiers (allParameters ++ [pLocal2]) n
        (res.1, p :: res.2)
      else if c = dollarSign then
        let res := classifyParamsFrame rest parameters
          (mapInsert identifiers p.Name pLocal.Value) allParameters n
        (res.1, p :: res.2)
      else (.error (.invalidParameterName pLocal.Name), p :: rest)

/-- `translate` with the caller's slice threaded through: the second
component is the slice as the caller sees it after the call. -/
def translateFrame (o : MapOrder) (sql : String) (params : List QueryParameter) :
    Except TranslateError (String × List QueryParameter) × List QueryParameter :=
  if sql = "" then (.error .emptySQL, params)
  else
    ((classifyParamsFrame params [] [] [] 0).1.bind fun c =>
      (checkParametersFound (o.pOrd c.parameters)
        (parametersInSqlOf sql)).bind fun _ =>
      (checkParametersProvided (o.psOrd (parametersInSqlOf sql))
        c.parameters).bind fun _ =>
      (checkIdentifiersFound (o.iOrd c.identifiers)
        (identifiersInSqlOf sql)).bind fun _ =>
      (checkIdentifiersProvided (o.isOrd (identifiersInSqlOf sql))
        c.identifiers).bind fun _ =>
      if c.positionalParameterCount < sql.data.count questionMark then
        .error (.notEnoughPositionalParams (sql.data.count questionMark)
          c.positionalParameterCount)
      else if sql.data.count questionMark < c.positionalParameterCount then
        .error (.tooManyPositionalParams (sql.data.count questionMark)
          c.positionalParameterCount)
      else
        (applyIdentifiers (o.rOrd c.identifiers) sql).bind fun result =>
          .ok (result, c.allParameters),
     (classifyParamsFrame params [] [] [] 0).2)

/-- The frame-carrying loop computes the same classification as the plain
loop and returns the caller's slice element for element unchanged. -/
theorem classifyParamsFrame_spec (params : List QueryParameter) :
    ∀ parameters identifiers allParameters n,
      classifyParamsFrame params parameters identifiers allParameters n =
        (classifyParamsAux params parameters identifiers allParameters n, params) := by
  induction params with
  | nil => intro ps ids all n; rfl
  | cons p rest ih =>
    intro ps ids all n
    cases hn : p.Name.data with
    | nil =>
      simp only [classifyParamsFrame, classifyParamsAux, hn, ih]
    | cons c nameRest =>
      by_cases hat : c = atSign
      · simp only [classifyParamsFrame, classifyParamsAux, hn, hat, if_true, ih]
      · by_cases hdl : c = dollarSign
        · simp only [classifyParamsFrame, classifyParamsAux, hn, hat,
            if_false, hdl, if_true, ih]
          rw [if_neg (show ¬ (dollarSign = atSign) by decide),
            if_neg (show ¬ (dollarSign = atSign) by decide)]
        · simp only [classifyParamsFrame, classifyParamsAux, hn, hat, if_false, hdl]

/-- C10: for every input and map-iteration order, the call returns its
usual result while the caller's binding slice is returned exactly as it
was supplied — every element keeps its original marker-carrying name and
value; marker stripping happens only on the copies placed in the
native-binding list. -/
theorem translate_does_not_mutate_params (o : MapOrder) (sql : String)
    (params : List QueryParameter) :
    translateFrame o sql params = (translateWith o sql params, params) := by
  unfold translateFrame translateWith
  by_cases hsql : sql = ""
  · rw [if_pos hsql, if_pos hsql]
  · rw [if_neg hsql, if_neg hsql, classifyParamsFrame_spec]
    rfl

end saferbq
